import Mathlib

/-!
Verification development for the routing-and-feasibility engine of
`src/app.py` (logistics-optimizer).

The embedding follows the source closely:
* `get_dist_km` — the haversine helper (lines 19-28), over the reals.
* `solve_fast_vrp_gen` — the sweep + nearest-neighbor VRP solver
  (lines 31-80), parametrised over the leg-distance function so that the
  combinatorial structure can be studied for any ordered field of
  distances; `solve_fast_vrp` instantiates it with `get_dist_km`.
* `classify_route` — the per-route feasibility classifier from the
  analytics loop (lines 159-194).
* `total_km` — the fleet total (line 200).

Coordinates read from the CSV are modelled as rationals; distances are
exact field values (the Python floats are idealised as exact arithmetic).
-/

/-- One row of the `points` list built on line 32 of `app.py`:
`[lat, lon, Location_Name]`. -/
structure Stop where
  lat : ℚ
  lon : ℚ
  name : String
deriving DecidableEq, Repr

/-- One entry of `vehicle_stats` (lines 74-78 of `app.py`):
`{"id": i+1, "stops": len(route) - 2, "dist_km": route_dist}`. -/
structure VStat (α : Type) where
  id : ℕ
  stops : ℕ
  dist_km : α

/-- Python's `min(x :: xs, key=f)`: scan left to right, replacing the
current best only on a strictly smaller key, so the first element
attaining the minimum key is returned. -/
def py_min {α β : Type} [LinearOrder β] (f : α → β) (x : α) (xs : List α) : α :=
  xs.foldl (fun best y => if f y < f best then y else best) x

theorem py_min_mem {α β : Type} [LinearOrder β] (f : α → β) (x : α) (xs : List α) :
    py_min f x xs ∈ x :: xs := by
  induction xs generalizing x with
  | nil => simp [py_min]
  | cons y ys ih =>
    have h := ih (if f y < f x then y else x)
    simp only [py_min, List.foldl_cons] at *
    rcases List.mem_cons.1 h with h | h
    · rw [h]
      split
      · exact List.mem_cons_of_mem _ (List.mem_cons_self _ _)
      · exact List.mem_cons_self _ _
    · exact List.mem_cons_of_mem _ (List.mem_cons_of_mem _ h)

/-- The nearest-neighbor loop of `solve_fast_vrp` (lines 52-66 of
`app.py`): starting from `cur` (initially the depot), repeatedly pick the
unvisited stop closest to the current location (Python's `min`, hence the
first minimizer in list order), append it, and accumulate the leg
distance.  Returns the visiting order of the given stops and the summed
leg distance from `cur` through all of them. -/
def nn_tour {α : Type} [LinearOrderedField α] (dist : Stop → Stop → α) :
    List Stop → Stop → List Stop × α
  | [], _ => ([], 0)
  | u :: us, cur =>
    let nearest := py_min (fun x => dist cur x) u us
    have hmem : nearest ∈ u :: us := py_min_mem _ u us
    have : ((u :: us).erase nearest).length < (u :: us).length := by
      rw [List.length_erase_of_mem hmem]
      simp
    let rest := nn_tour dist ((u :: us).erase nearest) nearest
    (nearest :: rest.1, dist cur nearest + rest.2)
termination_by l _ => l.length

/-- Lines 52-71 of `app.py` for one non-empty chunk: the route is
`[depot] ++ tour ++ [depot]` and `route_dist` additionally includes the
closing leg from the final location back to the depot. -/
def nn_route {α : Type} [LinearOrderedField α] (dist : Stop → Stop → α)
    (depot : Stop) (chunk : List Stop) : List Stop × α :=
  let t := nn_tour dist chunk depot
  (depot :: (t.1 ++ [depot]), t.2 + dist (t.1.getLastD depot) depot)

/-- Ordering of customer stops used by `customers.sort(key=lambda x: x[1])`
(line 37 of `app.py`): compare longitudes. -/
def lonLE (a b : Stop) : Prop := a.lon ≤ b.lon

instance : DecidableRel lonLE := fun a b => inferInstanceAs (Decidable (a.lon ≤ b.lon))

instance : IsTotal Stop lonLE := ⟨fun a b => le_total a.lon b.lon⟩

instance : IsTrans Stop lonLE := ⟨fun _ _ _ h1 h2 => le_trans h1 h2⟩

/-- The longitude-sorted customer list of line 37 of `app.py`. -/
def sorted_customers (customers : List Stop) : List Stop :=
  List.insertionSort lonLE customers

/-- `chunk_size = math.ceil(len(customers) / num_vehicles)` (line 39). -/
def chunk_size (num_customers num_vehicles : ℕ) : ℕ :=
  (Int.ceil ((num_customers : ℚ) / (num_vehicles : ℚ))).toNat

/-- The slice `customers[i*chunk_size : (i+1)*chunk_size]` of the
longitude-sorted customer list (lines 44-46 of `app.py`). -/
def sweep_chunk (customers : List Stop) (num_vehicles i : ℕ) : List Stop :=
  ((sorted_customers customers).drop (i * chunk_size customers.length num_vehicles)).take
    (chunk_size customers.length num_vehicles)

/-- `solve_fast_vrp` (lines 31-80 of `app.py`), parametrised by the
leg-distance function.  `points[0]` is the depot, the rest are customers;
vehicles whose chunk is empty are skipped (`if not chunk: continue`).
Returns `(vehicle_routes, vehicle_stats)`. -/
def solve_fast_vrp_gen {α : Type} [LinearOrderedField α] (dist : Stop → Stop → α)
    (points : List Stop) (num_vehicles : ℕ) :
    List (List Stop) × List (VStat α) :=
  match points with
  | [] => ([], [])
  | depot :: customers =>
    (List.range num_vehicles).foldl
      (fun acc i =>
        let chunk := sweep_chunk customers num_vehicles i
        if chunk.isEmpty then acc
        else
          let rd := nn_route dist depot chunk
          (acc.1 ++ [rd.1], acc.2 ++ [⟨i + 1, rd.1.length - 2, rd.2⟩]))
      ([], [])

/-- The interior (customer) stops of a route: everything strictly between
the two depot endpoints. -/
def interior_stops (route : List Stop) : List Stop :=
  (route.drop 1).dropLast

/-- Sum of consecutive-pair leg distances along a stop sequence. -/
def legs_sum {α : Type} [LinearOrderedField α] (dist : Stop → Stop → α) :
    List Stop → α
  | a :: b :: rest => dist a b + legs_sum dist (b :: rest)
  | _ => 0

/-- `total_km = sum(s['dist_km'] for s in stats)` (line 200 of `app.py`). -/
def total_km {α : Type} [LinearOrderedField α] (stats : List (VStat α)) : α :=
  (stats.map VStat.dist_km).sum

/-- The status labels of the feasibility classifier (lines 170-186). -/
inductive Status where
  | impossible
  | high_risk
  | optimal
  | easy
deriving DecidableEq, Repr

/-- `stop_time_hours = (stops * service_time_min) / 60` (line 165). -/
def stop_time_hours (stops : ℕ) (service_time_min : ℚ) : ℚ :=
  ((stops : ℚ) * service_time_min) / 60

/-- `drive_time_available = max_time - stop_time_hours` (line 168). -/
def drive_time_available (max_time : ℚ) (stops : ℕ) (service_time_min : ℚ) : ℚ :=
  max_time - stop_time_hours stops service_time_min

/-- The per-route feasibility classifier (lines 163-186 of `app.py`):
returns the status label together with the reported `req_speed`. -/
def classify_route (stops : ℕ) (dist max_time service_time_min : ℚ) : Status × ℚ :=
  let dta := drive_time_available max_time stops service_time_min
  if dta ≤ 0 then (Status.impossible, 999)
  else
    let req_speed := dist / dta
    if 60 < req_speed then (Status.high_risk, req_speed)
    else if 30 < req_speed then (Status.optimal, req_speed)
    else (Status.easy, req_speed)

/-- `math.radians`: degrees to radians. -/
noncomputable def radians (x : ℚ) : ℝ :=
  (x : ℝ) * Real.pi / 180

/-- `math.atan2 y x` (four-quadrant arctangent), as used on line 27. -/
noncomputable def atan2 (y x : ℝ) : ℝ :=
  if 0 < x then Real.arctan (y / x)
  else if x = 0 ∧ 0 < y then Real.pi / 2
  else if x = 0 ∧ y < 0 then -(Real.pi / 2)
  else if x = 0 then 0
  else if 0 ≤ y then Real.arctan (y / x) + Real.pi
  else Real.arctan (y / x) - Real.pi

/-- `get_dist_km` (lines 19-28 of `app.py`): haversine formula with
Earth radius 6371 km, result in kilometres. -/
noncomputable def get_dist_km (p1 p2 : Stop) : ℝ :=
  let R : ℝ := 6371
  let dlat := radians (p2.lat - p1.lat)
  let dlon := radians (p2.lon - p1.lon)
  let a := Real.sin (dlat / 2) * Real.sin (dlat / 2) +
    Real.cos (radians p1.lat) * Real.cos (radians p2.lat) *
      Real.sin (dlon / 2) * Real.sin (dlon / 2)
  let c := 2 * atan2 (Real.sqrt a) (Real.sqrt (1 - a))
  R * c

/-- `solve_fast_vrp` exactly as in the source: the generic solver with the
haversine leg distance. -/
noncomputable def solve_fast_vrp (points : List Stop) (num_vehicles : ℕ) :
    List (List Stop) × List (VStat ℝ) :=
  solve_fast_vrp_gen get_dist_km points num_vehicles

/-! ### Unfolding and structural lemmas for the nearest-neighbor loop -/

theorem nn_tour_nil {α : Type} [LinearOrderedField α] (dist : Stop → Stop → α) (cur : Stop) :
    nn_tour dist [] cur = ([], 0) := by
  rw [nn_tour]

theorem nn_tour_cons {α : Type} [LinearOrderedField α] (dist : Stop → Stop → α)
    (u : Stop) (us : List Stop) (cur : Stop) :
    nn_tour dist (u :: us) cur =
      ((py_min (fun x => dist cur x) u us) ::
        (nn_tour dist ((u :: us).erase (py_min (fun x => dist cur x) u us))
          (py_min (fun x => dist cur x) u us)).1,
       dist cur (py_min (fun x => dist cur x) u us) +
        (nn_tour dist ((u :: us).erase (py_min (fun x => dist cur x) u us))
          (py_min (fun x => dist cur x) u us)).2) := by
  rw [nn_tour]

theorem nn_tour_perm_aux {α : Type} [LinearOrderedField α] (dist : Stop → Stop → α) :
    ∀ (n : ℕ) (l : List Stop), l.length ≤ n → ∀ cur,
      ((nn_tour dist l cur).1).Perm l := by
  intro n
  induction n with
  | zero =>
    intro l hl cur
    have : l = [] := List.length_eq_zero.1 (Nat.le_zero.1 hl)
    subst this
    rw [nn_tour_nil]
  | succ n ih =>
    intro l hl cur
    match l with
    | [] => rw [nn_tour_nil]
    | u :: us =>
      rw [nn_tour_cons]
      have hmem : py_min (fun x => dist cur x) u us ∈ u :: us := py_min_mem _ u us
      have hlen : ((u :: us).erase (py_min (fun x => dist cur x) u us)).length ≤ n := by
        rw [List.length_erase_of_mem hmem]
        simpa using Nat.le_of_succ_le_succ hl
      exact ((ih _ hlen _).cons _).trans (List.perm_cons_erase hmem).symm

theorem nn_tour_perm {α : Type} [LinearOrderedField α] (dist : Stop → Stop → α)
    (l : List Stop) (cur : Stop) : ((nn_tour dist l cur).1).Perm l :=
  nn_tour_perm_aux dist l.length l le_rfl cur

theorem nn_tour_dist_eq_legs_aux {α : Type} [LinearOrderedField α] (dist : Stop → Stop → α) :
    ∀ (n : ℕ) (l : List Stop), l.length ≤ n → ∀ cur,
      (nn_tour dist l cur).2 = legs_sum dist (cur :: (nn_tour dist l cur).1) := by
  intro n
  induction n with
  | zero =>
    intro l hl cur
    have : l = [] := List.length_eq_zero.1 (Nat.le_zero.1 hl)
    subst this
    rw [nn_tour_nil]
    simp [legs_sum]
  | succ n ih =>
    intro l hl cur
    match l with
    | [] =>
      rw [nn_tour_nil]
      simp [legs_sum]
    | u :: us =>
      rw [nn_tour_cons]
      have hmem : py_min (fun x => dist cur x) u us ∈ u :: us := py_min_mem _ u us
      have hlen : ((u :: us).erase (py_min (fun x => dist cur x) u us)).length ≤ n := by
        rw [List.length_erase_of_mem hmem]
        simpa using Nat.le_of_succ_le_succ hl
      simp only [legs_sum]
      rw [ih _ hlen]

theorem nn_tour_dist_eq_legs {α : Type} [LinearOrderedField α] (dist : Stop → Stop → α)
    (l : List Stop) (cur : Stop) :
    (nn_tour dist l cur).2 = legs_sum dist (cur :: (nn_tour dist l cur).1) :=
  nn_tour_dist_eq_legs_aux dist l.length l le_rfl cur

theorem getLastD_irrel {β : Type} : ∀ (l : List β) (b x y : β),
    (b :: l).getLastD x = (b :: l).getLastD y := by
  intro l
  induction l with
  | nil => intro b x y; rfl
  | cons c l ih => intro b x y; simpa using ih c x y

theorem legs_sum_concat {α : Type} [LinearOrderedField α] (dist : Stop → Stop → α) :
    ∀ (l : List Stop) (a z : Stop),
      legs_sum dist (a :: l ++ [z]) = legs_sum dist (a :: l) + dist ((a :: l).getLastD z) z := by
  intro l
  induction l with
  | nil =>
    intro a z
    simp [legs_sum]
  | cons b l ih =>
    intro a z
    simp only [List.cons_append, List.append_eq, legs_sum] at *
    rw [ih b z]
    have h : ((a :: b :: l).getLastD z) = ((b :: l).getLastD z) := by
      rw [List.getLastD_cons]
      exact getLastD_irrel l b a z
    rw [h]
    ring

/-! ### Normal form of the solver loop -/

theorem foldl_two_append {β γ δ : Type} (p : δ → Bool) (f : δ → β) (g : δ → γ) :
    ∀ (l : List δ) (acc : List β × List γ),
      l.foldl (fun acc i => if p i then acc else (acc.1 ++ [f i], acc.2 ++ [g i])) acc =
        (acc.1 ++ l.filterMap (fun i => if p i then none else some (f i)),
         acc.2 ++ l.filterMap (fun i => if p i then none else some (g i))) := by
  intro l
  induction l with
  | nil => intro acc; simp
  | cons i l ih =>
    intro acc
    cases hp : p i with
    | true =>
      simp only [List.foldl_cons, List.filterMap_cons, hp, ite_true]
      rw [ih acc]
    | false =>
      simp only [List.foldl_cons, List.filterMap_cons, hp, Bool.false_eq_true, ite_false]
      rw [ih ((acc.1 ++ [f i], acc.2 ++ [g i]))]
      simp

theorem solve_fast_vrp_gen_eq {α : Type} [LinearOrderedField α] (dist : Stop → Stop → α)
    (depot : Stop) (customers : List Stop) (V : ℕ) :
    solve_fast_vrp_gen dist (depot :: customers) V =
      ((List.range V).filterMap (fun i => if (sweep_chunk customers V i).isEmpty then none
          else some (nn_route dist depot (sweep_chunk customers V i)).1),
       (List.range V).filterMap (fun i => if (sweep_chunk customers V i).isEmpty then none
          else some ⟨i + 1, (nn_route dist depot (sweep_chunk customers V i)).1.length - 2,
            (nn_route dist depot (sweep_chunk customers V i)).2⟩)) := by
  have h := foldl_two_append (β := List Stop) (γ := VStat α)
    (fun i => (sweep_chunk customers V i).isEmpty)
    (fun i => (nn_route dist depot (sweep_chunk customers V i)).1)
    (fun i => VStat.mk (i + 1) ((nn_route dist depot (sweep_chunk customers V i)).1.length - 2)
      ((nn_route dist depot (sweep_chunk customers V i)).2))
    (List.range V) ([], [])
  simpa [solve_fast_vrp_gen] using h

/-! ### Chunk arithmetic -/

theorem chunk_size_cast (c V : ℕ) (hV : 1 ≤ V) :
    ((chunk_size c V : ℕ) : ℚ) = ((Int.ceil ((c : ℚ) / (V : ℚ)) : ℤ) : ℚ) := by
  have h0 : (0 : ℤ) ≤ Int.ceil ((c : ℚ) / (V : ℚ)) := by
    apply Int.ceil_nonneg
    positivity
  unfold chunk_size
  exact_mod_cast congrArg (fun n : ℤ => (n : ℚ)) (Int.toNat_of_nonneg h0)

theorem length_le_mul_chunk_size (c V : ℕ) (hV : 1 ≤ V) :
    c ≤ V * chunk_size c V := by
  have hVpos : (0 : ℚ) < (V : ℚ) := by exact_mod_cast hV
  have h1 : ((c : ℚ) / (V : ℚ)) ≤ ((Int.ceil ((c : ℚ) / (V : ℚ)) : ℤ) : ℚ) := Int.le_ceil _
  have h2 : ((c : ℚ)) ≤ (V : ℚ) * ((Int.ceil ((c : ℚ) / (V : ℚ)) : ℤ) : ℚ) := by
    rw [mul_comm]
    exact (div_le_iff₀ hVpos).1 h1
  rw [← chunk_size_cast c V hV] at h2
  exact_mod_cast h2

theorem join_chunks {β : Type} :
    ∀ (V : ℕ) (cs : ℕ) (l : List β), l.length ≤ V * cs →
      (((List.range V).map (fun i => (l.drop (i * cs)).take cs)).flatten) = l := by
  intro V
  induction V with
  | zero =>
    intro cs l hl
    rw [Nat.zero_mul, Nat.le_zero] at hl
    simp [List.length_eq_zero.1 hl]
  | succ V ih =>
    intro cs l hl
    rw [List.range_succ_eq_map]
    simp only [List.map_cons, List.map_map, List.flatten_cons]
    have hdrop : ∀ i : ℕ, l.drop (Nat.succ i * cs) = (l.drop cs).drop (i * cs) := by
      intro i
      rw [List.drop_drop]
      congr 1
      rw [Nat.succ_mul]
      omega
    have hmaps : (List.range V).map ((fun i => (l.drop (i * cs)).take cs) ∘ Nat.succ)
        = (List.range V).map (fun i => ((l.drop cs).drop (i * cs)).take cs) := by
      apply List.map_congr_left
      intro i _
      simp only [Function.comp]
      rw [hdrop i]
    have h2 : l.length ≤ V * cs + cs := by
      rw [← Nat.succ_mul]
      exact hl
    have h3 : (l.drop cs).length ≤ V * cs := by
      rw [List.length_drop]
      exact Nat.sub_le_iff_le_add.2 h2
    rw [hmaps, ih cs (l.drop cs) h3]
    simp

/-! ### Route shape and coverage lemmas -/

theorem interior_nn_route {α : Type} [LinearOrderedField α] (dist : Stop → Stop → α)
    (depot : Stop) (chunk : List Stop) :
    interior_stops (nn_route dist depot chunk).1 = (nn_tour dist chunk depot).1 := by
  simp [interior_stops, nn_route]

theorem nn_tour_ne_nil {α : Type} [LinearOrderedField α] (dist : Stop → Stop → α)
    (chunk : List Stop) (depot : Stop) (h : chunk ≠ []) :
    (nn_tour dist chunk depot).1 ≠ [] := by
  intro hc
  exact h (((nn_tour_perm dist chunk depot).symm.trans (hc ▸ List.Perm.refl [])).eq_nil)

theorem nn_route_dist_eq_legs {α : Type} [LinearOrderedField α] (dist : Stop → Stop → α)
    (depot : Stop) (chunk : List Stop) (h : chunk ≠ []) :
    (nn_route dist depot chunk).2 = legs_sum dist (nn_route dist depot chunk).1 := by
  obtain ⟨a, l, ht⟩ := List.exists_cons_of_ne_nil (nn_tour_ne_nil dist chunk depot h)
  show (nn_tour dist chunk depot).2 + dist ((nn_tour dist chunk depot).1.getLastD depot) depot
      = legs_sum dist (depot :: ((nn_tour dist chunk depot).1 ++ [depot]))
  rw [nn_tour_dist_eq_legs, ht]
  rw [← List.cons_append]
  rw [legs_sum_concat dist (a :: l) depot depot]
  simp [List.getLastD_cons]

theorem flatten_filterMap_perm {α : Type} [LinearOrderedField α] (dist : Stop → Stop → α)
    (depot : Stop) (C : ℕ → List Stop) :
    ∀ idx : List ℕ,
      ((idx.filterMap (fun i => if (C i).isEmpty then none
          else some ((nn_tour dist (C i) depot).1))).flatten).Perm
        ((idx.map C).flatten) := by
  intro idx
  induction idx with
  | nil => simp
  | cons i idx ih =>
    cases hp : (C i).isEmpty with
    | true =>
      have hnil : C i = [] := List.isEmpty_iff.1 hp
      simpa [List.filterMap_cons, hp, hnil] using ih
    | false =>
      simp only [List.filterMap_cons, hp, Bool.false_eq_true, ite_false, List.map_cons,
        List.flatten_cons]
      exact (nn_tour_perm dist (C i) depot).append ih

theorem flatten_chunks_eq_sorted (customers : List Stop) (V : ℕ) (hV : 1 ≤ V) :
    (((List.range V).map (sweep_chunk customers V)).flatten) = sorted_customers customers := by
  have hlen : (sorted_customers customers).length = customers.length :=
    (List.perm_insertionSort lonLE customers).length_eq
  have hle : (sorted_customers customers).length ≤ V * chunk_size customers.length V := by
    rw [hlen]
    exact length_le_mul_chunk_size customers.length V hV
  exact join_chunks V (chunk_size customers.length V) (sorted_customers customers) hle

theorem solve_interiors_perm {α : Type} [LinearOrderedField α] (dist : Stop → Stop → α)
    (depot : Stop) (customers : List Stop) (V : ℕ) (hV : 1 ≤ V) :
    (((solve_fast_vrp_gen dist (depot :: customers) V).1.map interior_stops).flatten).Perm
      customers := by
  rw [solve_fast_vrp_gen_eq]
  simp only [List.map_filterMap]
  have hcong : (List.range V).filterMap
      (fun i => ((if (sweep_chunk customers V i).isEmpty then none
          else some ((nn_route dist depot (sweep_chunk customers V i)).1)).map interior_stops))
      = (List.range V).filterMap
      (fun i => (if (sweep_chunk customers V i).isEmpty then none
          else some ((nn_tour dist (sweep_chunk customers V i) depot).1))) := by
    apply List.filterMap_congr
    intro i _
    cases hp : (sweep_chunk customers V i).isEmpty with
    | true => simp [hp]
    | false => simp [hp, interior_nn_route]
  rw [hcong]
  have h1 := flatten_filterMap_perm dist depot (sweep_chunk customers V) (List.range V)
  rw [flatten_chunks_eq_sorted customers V hV] at h1
  exact h1.trans (List.perm_insertionSort lonLE customers)

/-! ### Alignment of routes, stats and chunks -/

theorem forall₂_filterMap {δ β γ : Type} (p : δ → Bool) (f : δ → β) (g : δ → γ)
    (Rel : γ → β → Prop) (h : ∀ i, p i = false → Rel (g i) (f i)) :
    ∀ idx : List δ, List.Forall₂ Rel
      (idx.filterMap (fun i => if p i then none else some (g i)))
      (idx.filterMap (fun i => if p i then none else some (f i))) := by
  intro idx
  induction idx with
  | nil => simp
  | cons i idx ih =>
    cases hp : p i with
    | true =>
      simpa [List.filterMap_cons, hp] using ih
    | false =>
      simp only [List.filterMap_cons, hp, Bool.false_eq_true, ite_false]
      exact List.Forall₂.cons (h i hp) ih

theorem forall₂_filterMap_filter {δ β γ : Type} (p : δ → Bool) (g : δ → β) (C : δ → γ)
    (Rel : β → γ → Prop) (h : ∀ i, p i = false → Rel (g i) (C i)) :
    ∀ idx : List δ, List.Forall₂ Rel
      (idx.filterMap (fun i => if p i then none else some (g i)))
      ((idx.filter (fun i => ! p i)).map C) := by
  intro idx
  induction idx with
  | nil => simp
  | cons i idx ih =>
    cases hp : p i with
    | true =>
      simpa [List.filterMap_cons, List.filter_cons, hp] using ih
    | false =>
      simp only [List.filterMap_cons, List.filter_cons, hp, Bool.false_eq_true, ite_false,
        Bool.not_false, ite_true, List.map_cons]
      exact List.Forall₂.cons (h i hp) ih

theorem forall₂_map_eq {β γ δ : Type} (f : β → δ) (g : γ → δ) :
    ∀ {l1 : List β} {l2 : List γ}, List.Forall₂ (fun a b => f a = g b) l1 l2 →
      l1.map f = l2.map g := by
  intro l1 l2 h
  induction h with
  | nil => rfl
  | cons h _ ih => simp only [List.map_cons, h, ih]

theorem sweep_chunk_ne_nil_of_not_isEmpty (customers : List Stop) (V i : ℕ)
    (hp : (sweep_chunk customers V i).isEmpty = false) :
    sweep_chunk customers V i ≠ [] := by
  intro hnil
  rw [hnil] at hp
  simp at hp

theorem solve_stats_routes_forall₂ {α : Type} [LinearOrderedField α] (dist : Stop → Stop → α)
    (depot : Stop) (customers : List Stop) (V : ℕ) :
    List.Forall₂ (fun (st : VStat α) (r : List Stop) =>
        st.stops = r.length - 2 ∧ st.dist_km = legs_sum dist r)
      (solve_fast_vrp_gen dist (depot :: customers) V).2
      (solve_fast_vrp_gen dist (depot :: customers) V).1 := by
  rw [solve_fast_vrp_gen_eq]
  apply forall₂_filterMap
  intro i hp
  exact ⟨rfl, nn_route_dist_eq_legs dist depot _
    (sweep_chunk_ne_nil_of_not_isEmpty customers V i hp)⟩

theorem solve_routes_chunks_forall₂ {α : Type} [LinearOrderedField α] (dist : Stop → Stop → α)
    (depot : Stop) (customers : List Stop) (V : ℕ) :
    List.Forall₂ (fun (r : List Stop) (c : List Stop) => (interior_stops r).Perm c)
      (solve_fast_vrp_gen dist (depot :: customers) V).1
      (((List.range V).filter (fun i => ! (sweep_chunk customers V i).isEmpty)).map
        (sweep_chunk customers V)) := by
  rw [solve_fast_vrp_gen_eq]
  apply forall₂_filterMap_filter
  intro i _
  rw [interior_nn_route]
  exact nn_tour_perm dist _ depot

theorem solve_route_mem_shape {α : Type} [LinearOrderedField α] (dist : Stop → Stop → α)
    (depot : Stop) (customers : List Stop) (V : ℕ) :
    ∀ r ∈ (solve_fast_vrp_gen dist (depot :: customers) V).1,
      ∃ seq : List Stop, seq ≠ [] ∧ r = depot :: (seq ++ [depot]) := by
  rw [solve_fast_vrp_gen_eq]
  intro r hr
  simp only [List.mem_filterMap] at hr
  obtain ⟨i, -, hi⟩ := hr
  cases hp : (sweep_chunk customers V i).isEmpty with
  | true => rw [hp] at hi; simp at hi
  | false =>
    rw [hp] at hi
    simp only [Bool.false_eq_true, ite_false, Option.some.injEq] at hi
    exact ⟨(nn_tour dist (sweep_chunk customers V i) depot).1,
      nn_tour_ne_nil dist _ depot (sweep_chunk_ne_nil_of_not_isEmpty customers V i hp), hi.symm⟩

/-! ### Claim theorems: coverage, closure, distances, stats consistency -/

/-- C1: for every stop list with depot at index 0 and every vehicle count
`V ≥ 1`, the solution returned by `solve_fast_vrp` covers every customer
stop exactly once — the multiset union of interior stops across all
returned routes is a permutation of the customer list, so no customer is
repeated within a route or across routes and none is missed. -/
theorem solve_fast_vrp_coverage (depot : Stop) (customers : List Stop) (V : ℕ)
    (hV : 1 ≤ V) :
    (((solve_fast_vrp (depot :: customers) V).1.map interior_stops).flatten).Perm customers :=
  solve_interiors_perm get_dist_km depot customers V hV

theorem solve_fast_vrp_coverage_witness :
    (1 ≤ 2) ∧
      (((solve_fast_vrp [⟨0, 0, "D"⟩, ⟨1, 1, "a"⟩, ⟨2, 2, "b"⟩] 2).1.map
          interior_stops).flatten).Perm [⟨1, 1, "a"⟩, ⟨2, 2, "b"⟩] :=
  ⟨by decide, solve_fast_vrp_coverage ⟨0, 0, "D"⟩ [⟨1, 1, "a"⟩, ⟨2, 2, "b"⟩] 2 (by decide)⟩

/-- C5: every route returned by `solve_fast_vrp` starts and ends at the
depot (the stop at index 0 of the input) and has at least one interior
customer stop between the two depot endpoints. -/
theorem solve_fast_vrp_route_closure (depot : Stop) (customers : List Stop) (V : ℕ) :
    (solve_fast_vrp (depot :: customers) V).1.Forall
      (fun r => r.head? = some depot ∧ r.getLast? = some depot ∧ interior_stops r ≠ []) := by
  rw [List.forall_iff_forall_mem]
  intro r hr
  obtain ⟨seq, hne, rfl⟩ := solve_route_mem_shape get_dist_km depot customers V r hr
  refine ⟨rfl, ?_, ?_⟩
  · rw [← List.cons_append, List.getLast?_concat]
  · simpa [interior_stops] using hne

/-- C6: the reported distance of every returned route is the sum of the
pairwise distances of consecutive stops along the route (closing leg back
to the depot included), and the reported fleet total is the exact sum of
the per-route distances. -/
theorem solve_fast_vrp_route_distance_reported (depot : Stop) (customers : List Stop)
    (V : ℕ) :
    List.Forall₂ (fun (st : VStat ℝ) (r : List Stop) => st.dist_km = legs_sum get_dist_km r)
      (solve_fast_vrp (depot :: customers) V).2
      (solve_fast_vrp (depot :: customers) V).1 ∧
    total_km (solve_fast_vrp (depot :: customers) V).2 =
      ((solve_fast_vrp (depot :: customers) V).1.map (legs_sum get_dist_km)).sum := by
  have h := solve_stats_routes_forall₂ get_dist_km depot customers V
  have h1 := h.imp (fun _ _ hab => hab.2)
  refine ⟨h1, ?_⟩
  show ((solve_fast_vrp (depot :: customers) V).2.map VStat.dist_km).sum = _
  simp only [solve_fast_vrp]
  rw [forall₂_map_eq VStat.dist_km (legs_sum get_dist_km) h1]

/-- C10: the two lists returned by `solve_fast_vrp` stay consistent —
`vehicle_stats` has the same length as `vehicle_routes`, and positionwise
the stats entry's `stops` field is the route length minus the two depot
endpoints while its `dist_km` field is that route's accumulated
leg-distance sum. -/
theorem solve_fast_vrp_stats_routes_consistent (depot : Stop) (customers : List Stop)
    (V : ℕ) :
    (solve_fast_vrp (depot :: customers) V).2.length =
        (solve_fast_vrp (depot :: customers) V).1.length ∧
    List.Forall₂ (fun (st : VStat ℝ) (r : List Stop) =>
        st.stops = r.length - 2 ∧ st.dist_km = legs_sum get_dist_km r)
      (solve_fast_vrp (depot :: customers) V).2
      (solve_fast_vrp (depot :: customers) V).1 := by
  have h := solve_stats_routes_forall₂ get_dist_km depot customers V
  exact ⟨h.length_eq, h⟩

/-- C2: the feasibility classifier computes `stopTimeHours = s*m/60` and
`driveTimeAvailable = T - stopTimeHours`; status is IMPOSSIBLE exactly on
`driveTimeAvailable ≤ 0`, otherwise HIGH_RISK for required speed above 60,
OPTIMAL for speeds in (30, 60] (so exactly 60 is OPTIMAL) and EASY for
speeds at most 30 (so exactly 30 is EASY). -/
theorem classify_route_thresholds (stops : ℕ) (d T m : ℚ) :
    stop_time_hours stops m = (stops * m) / 60 ∧
    drive_time_available T stops m = T - (stops * m) / 60 ∧
    (drive_time_available T stops m ≤ 0 →
      (classify_route stops d T m).1 = Status.impossible) ∧
    (0 < drive_time_available T stops m →
      ((60 < d / drive_time_available T stops m →
          (classify_route stops d T m).1 = Status.high_risk) ∧
       (30 < d / drive_time_available T stops m → d / drive_time_available T stops m ≤ 60 →
          (classify_route stops d T m).1 = Status.optimal) ∧
       (d / drive_time_available T stops m ≤ 30 →
          (classify_route stops d T m).1 = Status.easy))) := by
  refine ⟨rfl, rfl, ?_, ?_⟩
  · intro h
    simp [classify_route, h]
  · intro h
    have hn : ¬ drive_time_available T stops m ≤ 0 := not_le.2 h
    refine ⟨?_, ?_, ?_⟩
    · intro h60
      simp [classify_route, hn, h60]
    · intro h30 h60
      simp [classify_route, hn, not_lt.2 h60, h30]
    · intro h30
      have h60 : ¬ 60 < d / drive_time_available T stops m :=
        not_lt.2 (h30.trans (by norm_num))
      simp [classify_route, hn, h60, not_lt.2 h30]

theorem classify_route_thresholds_witness :
    (classify_route 1 60 2 60).1 = Status.optimal ∧
    (classify_route 1 30 2 60).1 = Status.easy ∧
    (classify_route 2 50 1 60).1 = Status.impossible := by
  have h1 := ((classify_route_thresholds 1 60 2 60).2.2.2 (by
    norm_num [drive_time_available, stop_time_hours])).2.1
  have h2 := ((classify_route_thresholds 1 30 2 60).2.2.2 (by
    norm_num [drive_time_available, stop_time_hours])).2.2
  have h3 := (classify_route_thresholds 2 50 1 60).2.2.1
  refine ⟨h1 ?_ ?_, h2 ?_, h3 ?_⟩ <;>
    norm_num [drive_time_available, stop_time_hours]

/-- C9: a vehicle whose contiguous chunk of the longitude-sorted customer
list is empty is omitted entirely — the number of returned routes (and
stats entries) equals the number of vehicles with a non-empty chunk, the
stats ids enumerate exactly those vehicles (as `i+1` in fleet order), and
every returned route carries at least one interior stop. -/
theorem solve_fast_vrp_omits_empty_chunks (depot : Stop) (customers : List Stop) (V : ℕ) :
    (solve_fast_vrp (depot :: customers) V).1.length =
        ((List.range V).filter (fun i => ! (sweep_chunk customers V i).isEmpty)).length ∧
    ((solve_fast_vrp (depot :: customers) V).2).map VStat.id =
        ((List.range V).filter (fun i => ! (sweep_chunk customers V i).isEmpty)).map (· + 1) ∧
    (solve_fast_vrp (depot :: customers) V).1.Forall (fun r => interior_stops r ≠ []) := by
  refine ⟨?_, ?_, ?_⟩
  · have h := solve_routes_chunks_forall₂ get_dist_km depot customers V
    show (solve_fast_vrp_gen get_dist_km (depot :: customers) V).1.length = _
    rw [h.length_eq, List.length_map]
  · have h : List.Forall₂ (fun (st : VStat ℝ) (i : ℕ) => st.id = i + 1)
        (solve_fast_vrp (depot :: customers) V).2
        (((List.range V).filter (fun i => ! (sweep_chunk customers V i).isEmpty)).map
          (fun i => i)) := by
      show List.Forall₂ _ (solve_fast_vrp_gen get_dist_km (depot :: customers) V).2 _
      rw [solve_fast_vrp_gen_eq]
      exact forall₂_filterMap_filter
        (fun i => (sweep_chunk customers V i).isEmpty)
        (fun i => (⟨i + 1, (nn_route get_dist_km depot (sweep_chunk customers V i)).1.length - 2,
          (nn_route get_dist_km depot (sweep_chunk customers V i)).2⟩ : VStat ℝ))
        (fun i => i)
        (fun st i => st.id = i + 1)
        (fun i _ => rfl) (List.range V)
    simp only [List.map_id'] at h
    exact forall₂_map_eq VStat.id (fun i => i + 1) h
  · rw [List.forall_iff_forall_mem]
    intro r hr
    obtain ⟨seq, hne, rfl⟩ := solve_route_mem_shape get_dist_km depot customers V r hr
    simpa [interior_stops] using hne

/-! ### Chunk sizes on concrete inputs -/

theorem chunk_size_eq (c V k : ℕ) (h : Int.ceil ((c : ℚ) / (V : ℚ)) = (k : ℤ)) :
    chunk_size c V = k := by
  rw [chunk_size, h]
  simp

theorem sweep_chunk_length (customers : List Stop) (V i : ℕ) :
    (sweep_chunk customers V i).length =
      min (chunk_size customers.length V)
        (customers.length - i * chunk_size customers.length V) := by
  have hlen : (sorted_customers customers).length = customers.length :=
    (List.perm_insertionSort lonLE customers).length_eq
  simp [sweep_chunk, List.length_take, List.length_drop, hlen]

theorem forall₂_mem_left {β γ : Type} {R : β → γ → Prop} :
    ∀ {l1 : List β} {l2 : List γ}, List.Forall₂ R l1 l2 → ∀ a ∈ l1, ∃ b ∈ l2, R a b := by
  intro l1 l2 h
  induction h with
  | nil => intro a ha; simp at ha
  | cons hr _ ih =>
    intro a ha
    rcases List.mem_cons.1 ha with rfl | ha
    · exact ⟨_, List.mem_cons_self _ _, hr⟩
    · obtain ⟨b, hb, hR⟩ := ih a ha
      exact ⟨b, List.mem_cons_of_mem _ hb, hR⟩

/-- C3: the sweep strategy sorts the customer stops by longitude
(a sorted permutation of the input customers), slices the sorted order
into contiguous chunks of size `⌈(N-1)/V⌉` (vehicle `i` receiving the
`i`-th chunk — positionwise, each returned route's interior stops are a
permutation of the corresponding chunk), and with 9 customers and 3
vehicles produces exactly 3 chunks of 3 stops each. -/
theorem solve_fast_vrp_sweep_partition (depot : Stop) (customers : List Stop) (V : ℕ)
    (hV : 1 ≤ V) :
    List.Sorted lonLE (sorted_customers customers) ∧
    (sorted_customers customers).Perm customers ∧
    (chunk_size customers.length V : ℤ) = Int.ceil ((customers.length : ℚ) / (V : ℚ)) ∧
    List.Forall₂ (fun (r : List Stop) (c : List Stop) => (interior_stops r).Perm c)
      (solve_fast_vrp (depot :: customers) V).1
      (((List.range V).filter (fun i => ! (sweep_chunk customers V i).isEmpty)).map
        (sweep_chunk customers V)) ∧
    (customers.length = 9 → V = 3 →
      (solve_fast_vrp (depot :: customers) V).1.length = 3 ∧
      (solve_fast_vrp (depot :: customers) V).1.Forall
        (fun r => (interior_stops r).length = 3)) := by
  refine ⟨List.sorted_insertionSort lonLE customers, List.perm_insertionSort lonLE customers,
    ?_, solve_routes_chunks_forall₂ get_dist_km depot customers V, ?_⟩
  · rw [chunk_size]
    exact Int.toNat_of_nonneg (Int.ceil_nonneg (by positivity))
  · intro h9 hV3
    subst hV3
    have hcs : chunk_size customers.length 3 = 3 := by
      rw [h9]
      exact chunk_size_eq 9 3 3 (by rw [Int.ceil_eq_iff]; norm_num)
    have hchunklen : ∀ i, i < 3 → (sweep_chunk customers 3 i).length = 3 := by
      intro i hi
      rw [sweep_chunk_length, hcs, h9]
      omega
    have hne : ∀ i ∈ List.range 3, (! (sweep_chunk customers 3 i).isEmpty) = true := by
      intro i hi
      have hl := hchunklen i (List.mem_range.1 hi)
      cases hsc : sweep_chunk customers 3 i with
      | nil => rw [hsc] at hl; simp at hl
      | cons a l => simp
    have hfilter : (List.range 3).filter (fun i => ! (sweep_chunk customers 3 i).isEmpty)
        = List.range 3 := List.filter_eq_self.2 hne
    have hf := solve_routes_chunks_forall₂ get_dist_km depot customers 3
    rw [hfilter] at hf
    constructor
    · show (solve_fast_vrp_gen get_dist_km (depot :: customers) 3).1.length = 3
      rw [hf.length_eq]
      simp
    · rw [List.forall_iff_forall_mem]
      intro r hr
      obtain ⟨c, hc, hperm⟩ := forall₂_mem_left hf r hr
      obtain ⟨i, hi, rfl⟩ := List.mem_map.1 hc
      rw [hperm.length_eq]
      exact hchunklen i (List.mem_range.1 hi)

theorem solve_fast_vrp_sweep_partition_witness :
    (solve_fast_vrp [⟨0, 0, "D"⟩, ⟨1, 1, "c1"⟩, ⟨2, 2, "c2"⟩, ⟨3, 3, "c3"⟩, ⟨4, 4, "c4"⟩,
        ⟨5, 5, "c5"⟩, ⟨6, 6, "c6"⟩, ⟨7, 7, "c7"⟩, ⟨8, 8, "c8"⟩, ⟨9, 9, "c9"⟩] 3).1.length = 3 :=
  ((solve_fast_vrp_sweep_partition ⟨0, 0, "D"⟩
    [⟨1, 1, "c1"⟩, ⟨2, 2, "c2"⟩, ⟨3, 3, "c3"⟩, ⟨4, 4, "c4"⟩, ⟨5, 5, "c5"⟩, ⟨6, 6, "c6"⟩,
      ⟨7, 7, "c7"⟩, ⟨8, 8, "c8"⟩, ⟨9, 9, "c9"⟩] 3 (by decide)).2.2.2.2 rfl rfl).1

/-! ### The order in which the nearest-neighbor loop breaks ties -/

/-- `a` is the first element of `l` (in list order) attaining the minimum
of `f`: everything strictly before it has a strictly larger key and
nothing anywhere has a smaller one.  This is exactly the element Python's
`min` returns. -/
def is_first_min {α β : Type} [LinearOrder β] (f : α → β) (l : List α) (a : α) : Prop :=
  ∃ pre post, l = pre ++ a :: post ∧ (∀ b ∈ pre, f a < f b) ∧ (∀ b ∈ l, f a ≤ f b)

theorem py_min_is_first_min {α β : Type} [LinearOrder β] (f : α → β) :
    ∀ (xs : List α) (x : α), is_first_min f (x :: xs) (py_min f x xs) := by
  intro xs
  induction xs with
  | nil =>
    intro x
    refine ⟨[], [], rfl, ?_, ?_⟩
    · intro b hb
      simp at hb
    · intro b hb
      simp only [py_min, List.foldl_nil]
      rw [List.mem_singleton] at hb
      subst hb
      exact le_refl _
  | cons y ys ih =>
    intro x
    by_cases hc : f y < f x
    · have hstep : py_min f x (y :: ys) = py_min f y ys := by
        simp only [py_min, List.foldl_cons, if_pos hc]
      rw [hstep]
      obtain ⟨pre, post, heq, hpre, hmin⟩ := ih y
      cases pre with
      | nil =>
        simp only [List.nil_append] at heq
        injection heq with h1 h2
        refine ⟨[x], post, ?_, ?_, ?_⟩
        · simp [← h1, ← h2]
        · intro b hb
          rw [List.mem_singleton] at hb
          subst hb
          rw [← h1]
          exact hc
        · intro b hb
          rcases List.mem_cons.1 hb with rfl | hb
          · exact le_of_lt (by rw [← h1]; exact hc)
          · exact hmin b hb
      | cons p pre₂ =>
        simp only [List.cons_append] at heq
        injection heq with h1 h2
        refine ⟨x :: y :: pre₂, post, ?_, ?_, ?_⟩
        · conv_lhs => rw [h2]
          rfl
        · intro b hb
          rcases List.mem_cons.1 hb with rfl | hb
          · exact lt_of_le_of_lt (hmin y (List.mem_cons_self _ _)) hc
          · rcases List.mem_cons.1 hb with rfl | hb
            · have h := hpre p (List.mem_cons_self _ _)
              rwa [← h1] at h
            · exact hpre b (List.mem_cons_of_mem _ hb)
        · intro b hb
          rcases List.mem_cons.1 hb with rfl | hb
          · exact le_of_lt (lt_of_le_of_lt (hmin y (List.mem_cons_self _ _)) hc)
          · exact hmin b hb
    · have hxy : f x ≤ f y := not_lt.1 hc
      have hstep : py_min f x (y :: ys) = py_min f x ys := by
        simp only [py_min, List.foldl_cons, if_neg hc]
      rw [hstep]
      obtain ⟨pre, post, heq, hpre, hmin⟩ := ih x
      cases pre with
      | nil =>
        simp only [List.nil_append] at heq
        injection heq with h1 h2
        refine ⟨[], y :: ys, ?_, ?_, ?_⟩
        · simp [← h1]
        · intro b hb
          simp at hb
        · intro b hb
          rcases List.mem_cons.1 hb with rfl | hb
          · exact (congrArg f h1).ge
          · rcases List.mem_cons.1 hb with rfl | hb
            · have h : f (py_min f x ys) = f x := (congrArg f h1).symm
              rw [h]
              exact hxy
            · exact hmin b (List.mem_cons_of_mem _ hb)
      | cons p pre₂ =>
        simp only [List.cons_append] at heq
        injection heq with h1 h2
        refine ⟨x :: y :: pre₂, post, ?_, ?_, ?_⟩
        · conv_lhs => rw [h2]
          rfl
        · intro b hb
          rcases List.mem_cons.1 hb with rfl | hb
          · have h := hpre p (List.mem_cons_self _ _)
            rwa [← h1] at h
          · rcases List.mem_cons.1 hb with rfl | hb
            · have h := hpre p (List.mem_cons_self _ _)
              rw [← h1] at h
              exact lt_of_lt_of_le h hxy
            · exact hpre b (List.mem_cons_of_mem _ hb)
        · intro b hb
          rcases List.mem_cons.1 hb with rfl | hb
          · exact le_of_lt (by have h := hpre p (List.mem_cons_self _ _); rwa [← h1] at h)
          · rcases List.mem_cons.1 hb with rfl | hb
            · have h := hpre p (List.mem_cons_self _ _)
              rw [← h1] at h
              exact le_of_lt (lt_of_lt_of_le h hxy)
            · exact hmin b (List.mem_cons_of_mem _ hb)

/-- The step-by-step contract of the nearest-neighbor loop: each visited
stop is the first minimizer (in the current list order of the unvisited
stops) of the distance from the current location, and is then erased. -/
def nn_spec {α : Type} [LinearOrderedField α] (dist : Stop → Stop → α) :
    Stop → List Stop → List Stop → Prop
  | _, remaining, [] => remaining = []
  | cur, remaining, a :: rest =>
      is_first_min (fun x => dist cur x) remaining a ∧
        nn_spec dist a (remaining.erase a) rest

theorem nn_tour_spec_aux {α : Type} [LinearOrderedField α] (dist : Stop → Stop → α) :
    ∀ (n : ℕ) (l : List Stop), l.length ≤ n → ∀ cur,
      nn_spec dist cur l (nn_tour dist l cur).1 := by
  intro n
  induction n with
  | zero =>
    intro l hl cur
    have : l = [] := List.length_eq_zero.1 (Nat.le_zero.1 hl)
    subst this
    rw [nn_tour_nil]
    rfl
  | succ n ih =>
    intro l hl cur
    match l with
    | [] =>
      rw [nn_tour_nil]
      rfl
    | u :: us =>
      rw [nn_tour_cons]
      have hmem : py_min (fun x => dist cur x) u us ∈ u :: us := py_min_mem _ u us
      have hlen : ((u :: us).erase (py_min (fun x => dist cur x) u us)).length ≤ n := by
        rw [List.length_erase_of_mem hmem]
        simpa using Nat.le_of_succ_le_succ hl
      exact ⟨py_min_is_first_min (fun x => dist cur x) us u, ih _ hlen _⟩

theorem nn_tour_spec {α : Type} [LinearOrderedField α] (dist : Stop → Stop → α)
    (l : List Stop) (cur : Stop) : nn_spec dist cur l (nn_tour dist l cur).1 :=
  nn_tour_spec_aux dist l.length l le_rfl cur

/-- C4 (amended): for every vehicle's assigned stop set the
nearest-neighbor sequencer builds the tour by repeatedly appending the
unvisited assigned stop at minimum distance from the current tour tail
(starting from the depot), breaking distance ties by choosing the stop
occurring *earliest in the current unvisited list order* (the
longitude-sorted chunk order), and finally appends the depot as the last
stop of the route. -/
theorem nn_route_first_min_sequencing (depot : Stop) (chunk : List Stop) (hne : chunk ≠ []) :
    ∃ seq : List Stop, seq ≠ [] ∧
      (nn_route get_dist_km depot chunk).1 = depot :: (seq ++ [depot]) ∧
      nn_spec get_dist_km depot chunk seq :=
  ⟨(nn_tour get_dist_km chunk depot).1,
    nn_tour_ne_nil get_dist_km chunk depot hne, rfl,
    nn_tour_spec get_dist_km chunk depot⟩

theorem nn_route_first_min_sequencing_witness :
    ([(⟨1, 1, "a"⟩ : Stop)] ≠ []) ∧
    ∃ seq : List Stop, seq ≠ [] ∧
      (nn_route get_dist_km ⟨0, 0, "D"⟩ [⟨1, 1, "a"⟩]).1 =
        ⟨0, 0, "D"⟩ :: (seq ++ [⟨0, 0, "D"⟩]) ∧
      nn_spec get_dist_km ⟨0, 0, "D"⟩ [⟨1, 1, "a"⟩] seq :=
  ⟨by decide, nn_route_first_min_sequencing ⟨0, 0, "D"⟩ [⟨1, 1, "a"⟩] (by decide)⟩

/-- Depot at index 0 of the tie-break counterexample input. -/
def stopD : Stop := ⟨0, 0, "D"⟩

/-- Customer at index 1 (the lower customer index): longitude +1. -/
def stopA : Stop := ⟨0, 1, "A"⟩

/-- Customer at index 2 (the higher customer index): longitude -1. -/
def stopB : Stop := ⟨0, -1, "B"⟩

theorem tie_dist_eq : get_dist_km stopD stopA = get_dist_km stopD stopB := by
  simp only [get_dist_km, radians, stopD, stopA, stopB]
  norm_num
  rw [show (-Real.pi / 180 / 2) = -(Real.pi / 180 / 2) by ring, Real.sin_neg]
  ring_nf

theorem sorted_counterexample_input : sorted_customers [stopA, stopB] = [stopB, stopA] := by
  have h : ¬ lonLE stopA stopB := by
    simp [lonLE, stopA, stopB]
  simp [sorted_customers, List.insertionSort, List.orderedInsert, h]

theorem sweep_chunk_counterexample_input :
    sweep_chunk [stopA, stopB] 1 0 = [stopB, stopA] := by
  have hcs : chunk_size ([stopA, stopB] : List Stop).length 1 = 2 := by
    show chunk_size 2 1 = 2
    exact chunk_size_eq 2 1 2 (by rw [Int.ceil_eq_iff]; norm_num)
  rw [sweep_chunk, hcs, sorted_counterexample_input]
  rfl

theorem nn_tour_counterexample :
    (nn_tour get_dist_km [stopB, stopA] stopD).1 = [stopB, stopA] := by
  have hmin : py_min (fun x => get_dist_km stopD x) stopB [stopA] = stopB := by
    simp only [py_min, List.foldl_cons, List.foldl_nil]
    rw [if_neg]
    rw [tie_dist_eq]
    exact lt_irrefl _
  rw [nn_tour_cons]
  simp only [hmin]
  rw [List.erase_cons_head]
  rw [nn_tour_cons]
  simp only [py_min, List.foldl_nil]
  rw [List.erase_cons_head, nn_tour_nil]

/-- C4 counterexample: with depot `(0,0)` and customers at index 1
(`stopA`, longitude 1) and index 2 (`stopB`, longitude -1), both customers
are equidistant from the depot, yet the produced route visits the
index-2 stop `stopB` first — the tie is broken by the longitude-sorted
unvisited order, not by the lowest stop index as the claim states. -/
theorem nn_tiebreak_counterexample :
    get_dist_km stopD stopA = get_dist_km stopD stopB ∧
    stopA ≠ stopB ∧
    (solve_fast_vrp [stopD, stopA, stopB] 1).1 = [[stopD, stopB, stopA, stopD]] := by
  refine ⟨tie_dist_eq, by decide, ?_⟩
  show (solve_fast_vrp_gen get_dist_km (stopD :: [stopA, stopB]) 1).1 = _
  rw [solve_fast_vrp_gen_eq]
  dsimp only
  rw [show List.range 1 = [0] from rfl]
  simp only [List.filterMap_cons, List.filterMap_nil, sweep_chunk_counterexample_input]
  simp only [List.isEmpty_cons, Bool.false_eq_true, ite_false]
  simp [nn_route, nn_tour_counterexample]

/-! ### The haversine distance: relating the atan2 form to arcsin -/

/-- The intermediate value `a` of the haversine formula (lines 24-26 of
`app.py`). -/
noncomputable def hav_a (p1 p2 : Stop) : ℝ :=
  Real.sin (radians (p2.lat - p1.lat) / 2) * Real.sin (radians (p2.lat - p1.lat) / 2) +
    Real.cos (radians p1.lat) * Real.cos (radians p2.lat) *
      Real.sin (radians (p2.lon - p1.lon) / 2) * Real.sin (radians (p2.lon - p1.lon) / 2)

/-- Modelled from the spec: the textbook great-circle (haversine)
distance `2 · R · arcsin √a` with Earth radius `R = 6371` km. -/
noncomputable def great_circle_km (p1 p2 : Stop) : ℝ :=
  2 * 6371 * Real.arcsin (Real.sqrt (hav_a p1 p2))

theorem get_dist_km_eq_atan2 (p1 p2 : Stop) :
    get_dist_km p1 p2 =
      6371 * (2 * atan2 (Real.sqrt (hav_a p1 p2)) (Real.sqrt (1 - hav_a p1 p2))) := rfl

theorem atan2_sqrt_eq_arcsin (a : ℝ) :
    atan2 (Real.sqrt a) (Real.sqrt (1 - a)) = Real.arcsin (Real.sqrt a) := by
  rcases le_or_lt a 0 with ha | ha
  · have h0 : Real.sqrt a = 0 := Real.sqrt_eq_zero'.2 ha
    have h1 : 0 < Real.sqrt (1 - a) := Real.sqrt_pos.2 (by linarith)
    rw [h0, atan2, if_pos h1, zero_div, Real.arctan_zero, Real.arcsin_zero]
  · rcases lt_or_le a 1 with ha1 | ha1
    · have hx : 0 < Real.sqrt (1 - a) := Real.sqrt_pos.2 (by linarith)
      have hmem : Real.sqrt a ∈ Set.Ioo (-(1 : ℝ)) 1 := by
        constructor
        · have := Real.sqrt_nonneg a
          linarith
        · exact (Real.sqrt_lt' one_pos).2 (by linarith)
      rw [atan2, if_pos hx, Real.arcsin_eq_arctan hmem, Real.sq_sqrt (le_of_lt ha)]
    · have hx0 : Real.sqrt (1 - a) = 0 := Real.sqrt_eq_zero'.2 (by linarith)
      have hy : 0 < Real.sqrt a := Real.sqrt_pos.2 (by linarith)
      have hy1 : 1 ≤ Real.sqrt a := by
        rw [← Real.sqrt_one]
        exact Real.sqrt_le_sqrt ha1
      rw [atan2, hx0, if_neg (lt_irrefl 0), if_pos ⟨rfl, hy⟩, Real.arcsin_of_one_le hy1]

/-- C8 (amended): `get_dist_km` computes the great-circle distance of the
haversine formula with Earth radius 6371 km — it agrees with the textbook
`2·R·arcsin √a` form — and is non-negative; it returns the distance in
kilometres as an unrounded real number (see
`get_dist_km_not_rounded_counterexample`), not an integer number of
metres. -/
theorem get_dist_km_haversine_real (p1 p2 : Stop) :
    get_dist_km p1 p2 = great_circle_km p1 p2 ∧ 0 ≤ get_dist_km p1 p2 := by
  have h : get_dist_km p1 p2 = 6371 * (2 * Real.arcsin (Real.sqrt (hav_a p1 p2))) := by
    rw [get_dist_km_eq_atan2, atan2_sqrt_eq_arcsin]
  constructor
  · rw [h, great_circle_km]
    ring
  · rw [h]
    have ha := Real.arcsin_nonneg.2 (Real.sqrt_nonneg (hav_a p1 p2))
    linarith

theorem get_dist_km_micro :
    get_dist_km ⟨0, 0, "a"⟩ ⟨1/1000000, 0, "b"⟩ = 6371 * (Real.pi / 180000000) := by
  have hpi := Real.pi_pos
  set t : ℝ := Real.pi / 180000000 with ht
  rw [get_dist_km_eq_atan2]
  have hA : hav_a ⟨0, 0, "a"⟩ ⟨1/1000000, 0, "b"⟩ = Real.sin (t/2) * Real.sin (t/2) := by
    rw [hav_a]
    dsimp only
    have h1 : radians ((1/1000000 : ℚ) - 0) = t := by
      rw [radians, ht]
      push_cast
      ring
    have h2 : radians ((0 : ℚ) - 0) = 0 := by
      rw [radians]
      push_cast
      ring
    rw [h1, h2]
    simp
  rw [hA]
  have ht2pos : 0 < t / 2 := by positivity
  have ht2lt : t / 2 < Real.pi / 2 := by
    rw [ht]
    linarith
  have hsin_pos : 0 < Real.sin (t / 2) :=
    Real.sin_pos_of_pos_of_lt_pi ht2pos (by linarith)
  have hcos_pos : 0 < Real.cos (t / 2) := Real.cos_pos_of_mem_Ioo ⟨by linarith, ht2lt⟩
  have hs : Real.sqrt (Real.sin (t/2) * Real.sin (t/2)) = Real.sin (t/2) :=
    Real.sqrt_mul_self hsin_pos.le
  have hc1 : (1 : ℝ) - Real.sin (t/2) * Real.sin (t/2) = Real.cos (t/2) * Real.cos (t/2) := by
    linear_combination (-1 : ℝ) * Real.sin_sq_add_cos_sq (t/2)
  have hc : Real.sqrt (1 - Real.sin (t/2) * Real.sin (t/2)) = Real.cos (t/2) := by
    rw [hc1]
    exact Real.sqrt_mul_self hcos_pos.le
  rw [hs, hc, atan2, if_pos hcos_pos, ← Real.tan_eq_sin_div_cos,
    Real.arctan_tan (by linarith) ht2lt]
  ring

/-- C8 counterexample: for the depot `(0,0)` and a stop `1e-6` degrees of
latitude away the function returns `6371·π/1.8e8` km (≈ 0.111 m): a value
strictly between 0 and half a metre.  It is therefore not a non-negative
integer number of metres, and not any value rounded to the nearest metre
(which would be 0 here): the code returns the raw kilometre value. -/
theorem get_dist_km_not_rounded_counterexample :
    0 < get_dist_km ⟨0, 0, "a"⟩ ⟨1/1000000, 0, "b"⟩ ∧
    get_dist_km ⟨0, 0, "a"⟩ ⟨1/1000000, 0, "b"⟩ < 1/2000 ∧
    ¬ ∃ n : ℕ, get_dist_km ⟨0, 0, "a"⟩ ⟨1/1000000, 0, "b"⟩ * 1000 = (n : ℝ) := by
  rw [get_dist_km_micro]
  have hgt := Real.pi_gt_d2
  have hlt := Real.pi_lt_d2
  have hgt' : (3.14 : ℝ) < Real.pi := hgt
  have hlt' : Real.pi < (3.15 : ℝ) := hlt
  refine ⟨by positivity, by nlinarith, ?_⟩
  rintro ⟨n, hn⟩
  have h0 : (0 : ℝ) < (n : ℝ) := by
    rw [← hn]
    positivity
  have h1 : (n : ℝ) < 1 := by
    rw [← hn]
    nlinarith
  have hn0 : 0 < n := by exact_mod_cast h0
  have hn1 : n < 1 := by exact_mod_cast h1
  omega

/-! ### Metric properties of the haversine distance -/

theorem radians_sub_neg (a b : ℚ) : radians (a - b) = -(radians (b - a)) := by
  rw [radians, radians]
  push_cast
  ring

theorem hav_a_symm (p1 p2 : Stop) : hav_a p1 p2 = hav_a p2 p1 := by
  rw [hav_a, hav_a,
    show radians (p1.lat - p2.lat) = -(radians (p2.lat - p1.lat)) from radians_sub_neg _ _,
    show radians (p1.lon - p2.lon) = -(radians (p2.lon - p1.lon)) from radians_sub_neg _ _,
    neg_div, neg_div, Real.sin_neg, Real.sin_neg]
  ring

theorem sin_ne_zero_of_abs_lt_pi {t : ℝ} (h0 : t ≠ 0) (h1 : -Real.pi < t)
    (h2 : t < Real.pi) : Real.sin t ≠ 0 := by
  rcases lt_or_gt_of_ne h0 with h | h
  · have hpos : 0 < Real.sin (-t) :=
      Real.sin_pos_of_pos_of_lt_pi (by linarith) (by linarith)
    rw [Real.sin_neg] at hpos
    linarith
  · exact (Real.sin_pos_of_pos_of_lt_pi h (by linarith)).ne'

theorem cos_radians_pos {q : ℚ} (h1 : -90 < q) (h2 : q < 90) :
    0 < Real.cos (radians q) := by
  have hpi := Real.pi_pos
  have hq1 : (-90 : ℝ) < (q : ℝ) := by exact_mod_cast h1
  have hq2 : (q : ℝ) < 90 := by exact_mod_cast h2
  apply Real.cos_pos_of_mem_Ioo
  constructor
  · show -(Real.pi / 2) < radians q
    rw [radians]
    nlinarith
  · show radians q < Real.pi / 2
    rw [radians]
    nlinarith

theorem sin_radians_half_ne_zero {q : ℚ} (h0 : q ≠ 0) (h1 : -360 < q) (h2 : q < 360) :
    Real.sin (radians q / 2) ≠ 0 := by
  have hpi := Real.pi_pos
  have hq1 : (-360 : ℝ) < (q : ℝ) := by exact_mod_cast h1
  have hq2 : (q : ℝ) < 360 := by exact_mod_cast h2
  apply sin_ne_zero_of_abs_lt_pi
  · rw [radians]
    intro h
    apply h0
    have h' : (q : ℝ) * Real.pi = 0 := by linear_combination (360 : ℝ) * h
    rcases mul_eq_zero.1 h' with hq | hq
    · exact_mod_cast hq
    · exact absurd hq Real.pi_ne_zero
  · rw [radians]
    nlinarith
  · rw [radians]
    nlinarith

theorem hav_a_pos (p1 p2 : Stop) (hl1 : -90 < p1.lat) (hl2 : p1.lat < 90)
    (hl3 : -90 < p2.lat) (hl4 : p2.lat < 90)
    (hne : p1.lat ≠ p2.lat ∨ p1.lon ≠ p2.lon)
    (hlon1 : -360 < p2.lon - p1.lon) (hlon2 : p2.lon - p1.lon < 360) :
    0 < hav_a p1 p2 := by
  have hcos : 0 < Real.cos (radians p1.lat) * Real.cos (radians p2.lat) :=
    mul_pos (cos_radians_pos hl1 hl2) (cos_radians_pos hl3 hl4)
  rw [hav_a]
  rcases hne with hne | hne
  · have hd : p2.lat - p1.lat ≠ 0 := by
      intro h
      exact hne (sub_eq_zero.1 h).symm
    have hs := sin_radians_half_ne_zero hd (by linarith) (by linarith)
    have hfirst := mul_self_pos.2 hs
    have hsecond : 0 ≤ Real.cos (radians p1.lat) * Real.cos (radians p2.lat) *
        Real.sin (radians (p2.lon - p1.lon) / 2) * Real.sin (radians (p2.lon - p1.lon) / 2) := by
      nlinarith [mul_self_nonneg (Real.sin (radians (p2.lon - p1.lon) / 2))]
    linarith
  · have hd : p2.lon - p1.lon ≠ 0 := by
      intro h
      exact hne (sub_eq_zero.1 h).symm
    have hs := sin_radians_half_ne_zero hd hlon1 hlon2
    have hfirst := mul_self_nonneg (Real.sin (radians (p2.lat - p1.lat) / 2))
    have hsecond : 0 < Real.cos (radians p1.lat) * Real.cos (radians p2.lat) *
        Real.sin (radians (p2.lon - p1.lon) / 2) * Real.sin (radians (p2.lon - p1.lon) / 2) := by
      nlinarith [mul_self_pos.2 hs]
    linarith

/-- C7 (amended): the distance is symmetric, vanishes whenever the two
coordinate pairs are equal, and is non-negative; but it also vanishes for
some *distinct* coordinate pairs (longitudes a full turn apart, see
`get_dist_km_zero_counterexample`), so "zero exactly when equal" fails in
general.  Strict positivity for distinct coordinates does hold on the
geographically meaningful range: latitudes strictly between -90 and 90
and longitude difference smaller than a full turn. -/
theorem get_dist_km_metric_properties (p1 p2 : Stop) :
    get_dist_km p1 p2 = get_dist_km p2 p1 ∧
    (p1.lat = p2.lat ∧ p1.lon = p2.lon → get_dist_km p1 p2 = 0) ∧
    0 ≤ get_dist_km p1 p2 ∧
    (-90 < p1.lat → p1.lat < 90 → -90 < p2.lat → p2.lat < 90 →
      -360 < p2.lon - p1.lon → p2.lon - p1.lon < 360 →
      (p1.lat ≠ p2.lat ∨ p1.lon ≠ p2.lon) → 0 < get_dist_km p1 p2) := by
  refine ⟨?_, ?_, ?_, ?_⟩
  · rw [get_dist_km_eq_atan2, get_dist_km_eq_atan2, hav_a_symm]
  · rintro ⟨hlat, hlon⟩
    rw [get_dist_km_eq_atan2]
    have hA : hav_a p1 p2 = 0 := by
      rw [hav_a, hlat, hlon, sub_self, sub_self]
      have h0 : radians 0 = 0 := by
        rw [radians]
        push_cast
        ring
      rw [h0]
      simp
    rw [hA, Real.sqrt_zero, sub_zero, Real.sqrt_one, atan2, if_pos one_pos, zero_div,
      Real.arctan_zero]
    ring
  · rw [get_dist_km_eq_atan2, atan2_sqrt_eq_arcsin]
    have ha := Real.arcsin_nonneg.2 (Real.sqrt_nonneg (hav_a p1 p2))
    linarith
  · intro hl1 hl2 hl3 hl4 hlon1 hlon2 hne
    rw [get_dist_km_eq_atan2, atan2_sqrt_eq_arcsin]
    have hpos := hav_a_pos p1 p2 hl1 hl2 hl3 hl4 hne hlon1 hlon2
    have h1 : 0 < Real.arcsin (Real.sqrt (hav_a p1 p2)) :=
      Real.arcsin_pos.2 (Real.sqrt_pos.2 hpos)
    linarith

theorem get_dist_km_metric_properties_witness :
    0 < get_dist_km ⟨0, 0, "x"⟩ ⟨0, 1, "y"⟩ ∧
    get_dist_km ⟨2, 3, "u"⟩ ⟨2, 3, "v"⟩ = 0 :=
  ⟨(get_dist_km_metric_properties ⟨0, 0, "x"⟩ ⟨0, 1, "y"⟩).2.2.2 (by norm_num) (by norm_num)
      (by norm_num) (by norm_num) (by norm_num) (by norm_num) (Or.inr (by norm_num)),
   (get_dist_km_metric_properties ⟨2, 3, "u"⟩ ⟨2, 3, "v"⟩).2.1 ⟨rfl, rfl⟩⟩

/-- C7 counterexample: the coordinate pairs `(0,0)` and `(0,360)` are
distinct, yet the computed distance is exactly 0 (the longitudes differ by
a full turn of 360 degrees), refuting "distance is 0 exactly when the
coordinates are equal / strictly positive whenever they differ". -/
theorem get_dist_km_zero_counterexample :
    (⟨0, 0, "p"⟩ : Stop) ≠ ⟨0, 360, "p"⟩ ∧
    get_dist_km ⟨0, 0, "p"⟩ ⟨0, 360, "p"⟩ = 0 := by
  refine ⟨by decide, ?_⟩
  rw [get_dist_km_eq_atan2]
  have hA : hav_a ⟨0, 0, "p"⟩ ⟨0, 360, "p"⟩ = 0 := by
    rw [hav_a]
    dsimp only
    have h1 : radians ((0 : ℚ) - 0) = 0 := by
      rw [radians]
      push_cast
      ring
    have h2 : radians ((360 : ℚ) - 0) / 2 = Real.pi := by
      rw [radians]
      push_cast
      ring
    rw [h1, h2, Real.sin_pi]
    simp
  rw [hA, Real.sqrt_zero, sub_zero, Real.sqrt_one, atan2, if_pos one_pos, zero_div,
    Real.arctan_zero]
  ring

/-! ### Concrete instances of the claim theorems -/

theorem solve_fast_vrp_route_closure_witness :
    (solve_fast_vrp [⟨0, 0, "Dw"⟩, ⟨5, 5, "cw"⟩] 1).1.Forall
      (fun r => r.head? = some ⟨0, 0, "Dw"⟩ ∧ r.getLast? = some ⟨0, 0, "Dw"⟩ ∧
        interior_stops r ≠ []) :=
  solve_fast_vrp_route_closure ⟨0, 0, "Dw"⟩ [⟨5, 5, "cw"⟩] 1

theorem solve_fast_vrp_route_distance_reported_witness :
    List.Forall₂ (fun (st : VStat ℝ) (r : List Stop) => st.dist_km = legs_sum get_dist_km r)
      (solve_fast_vrp [⟨0, 0, "Dx"⟩, ⟨1, 2, "cx"⟩] 2).2
      (solve_fast_vrp [⟨0, 0, "Dx"⟩, ⟨1, 2, "cx"⟩] 2).1 ∧
    total_km (solve_fast_vrp [⟨0, 0, "Dx"⟩, ⟨1, 2, "cx"⟩] 2).2 =
      ((solve_fast_vrp [⟨0, 0, "Dx"⟩, ⟨1, 2, "cx"⟩] 2).1.map (legs_sum get_dist_km)).sum :=
  solve_fast_vrp_route_distance_reported ⟨0, 0, "Dx"⟩ [⟨1, 2, "cx"⟩] 2

theorem solve_fast_vrp_omits_empty_chunks_witness :
    (solve_fast_vrp [⟨0, 0, "Dy"⟩, ⟨1, 2, "cy"⟩] 3).1.length =
        ((List.range 3).filter
          (fun i => ! (sweep_chunk [⟨1, 2, "cy"⟩] 3 i).isEmpty)).length ∧
    ((solve_fast_vrp [⟨0, 0, "Dy"⟩, ⟨1, 2, "cy"⟩] 3).2).map VStat.id =
        ((List.range 3).filter
          (fun i => ! (sweep_chunk [⟨1, 2, "cy"⟩] 3 i).isEmpty)).map (· + 1) ∧
    (solve_fast_vrp [⟨0, 0, "Dy"⟩, ⟨1, 2, "cy"⟩] 3).1.Forall
      (fun r => interior_stops r ≠ []) :=
  solve_fast_vrp_omits_empty_chunks ⟨0, 0, "Dy"⟩ [⟨1, 2, "cy"⟩] 3

theorem solve_fast_vrp_stats_routes_consistent_witness :
    (solve_fast_vrp [⟨0, 0, "Dz"⟩, ⟨1, 2, "cz"⟩, ⟨3, 4, "dz"⟩] 2).2.length =
        (solve_fast_vrp [⟨0, 0, "Dz"⟩, ⟨1, 2, "cz"⟩, ⟨3, 4, "dz"⟩] 2).1.length ∧
    List.Forall₂ (fun (st : VStat ℝ) (r : List Stop) =>
        st.stops = r.length - 2 ∧ st.dist_km = legs_sum get_dist_km r)
      (solve_fast_vrp [⟨0, 0, "Dz"⟩, ⟨1, 2, "cz"⟩, ⟨3, 4, "dz"⟩] 2).2
      (solve_fast_vrp [⟨0, 0, "Dz"⟩, ⟨1, 2, "cz"⟩, ⟨3, 4, "dz"⟩] 2).1 :=
  solve_fast_vrp_stats_routes_consistent ⟨0, 0, "Dz"⟩ [⟨1, 2, "cz"⟩, ⟨3, 4, "dz"⟩] 2

theorem get_dist_km_haversine_real_witness :
    get_dist_km ⟨10, 20, "w1"⟩ ⟨30, 40, "w2"⟩ = great_circle_km ⟨10, 20, "w1"⟩ ⟨30, 40, "w2"⟩ ∧
    0 ≤ get_dist_km ⟨10, 20, "w1"⟩ ⟨30, 40, "w2"⟩ :=
  get_dist_km_haversine_real ⟨10, 20, "w1"⟩ ⟨30, 40, "w2"⟩
